import Mathlib

/-!
Shallow embedding of `src/main.py` (FastAPI + Elasticsearch document
indexing/retrieval service).

Modelling conventions:
* Python floats are modelled as `ℚ` (the float values produced by the code are
  quotients `(n % 100000) / 100000` of small integers).
* The SHA-256 digest is an abstract parameter `sha : String → List ℕ`
  (a byte list); the code only consumes the digest byte stream.
* The Elasticsearch backend is a state `ES` holding whether the index exists
  (`idx`) and the documents as an association list keyed by id (`docs`), with
  the newest binding first (`es.index` is an upsert; `List.lookup` reads the
  newest binding, which models overwrite).  Backend reachability is an explicit
  `reach : Bool` (constant during one request) or, for the per-document store
  calls inside a batch ingest, an oracle `storeOk : ℕ → Bool` giving the
  outcome of the i-th `es.index` call, so that mid-batch store failures are
  representable.  A raised Python exception is an `Except.error`.
* `uuid4` id generation is an abstract stream `fresh : ℕ → String` giving the
  id generated for the i-th text of the call; freshness/uniqueness of uuids
  enters theorems as hypotheses.
* The search engine itself is out of scope: a search endpoint builds a
  `SearchCall` (the request body the code passes to `es.search`) and the
  engine's answer is an abstract `respond : SearchCall → List Hit`.
* `es.indices.refresh` (visibility sync) has no observable effect in this
  state model and is omitted.
-/

/-- Metadata dictionaries (`dict[str, Any]` in the source) modelled as
association lists of string keys to string values; the core never interprets
them, it only stores, replaces and defaults them. -/
abbrev MetaMap := List (String × String)

/-- A stored document: the `_source` of an Elasticsearch hit as written by the
service (`{"text": ..., "meta": ..., "embedding": ...}`). -/
structure EsDoc where
  text : String
  meta : MetaMap
  embedding : List ℚ
deriving DecidableEq, Repr

/-- The documents of the index: association list from id to document, newest
binding first. -/
abbrev Store := List (String × EsDoc)

/-- Backend state: whether the target index exists, and its documents. -/
structure ES where
  idx : Bool
  docs : Store
deriving DecidableEq, Repr

/-- Errors surfaced by the service endpoints (HTTP error outcomes and
propagated exceptions), following the spec's taxonomy. -/
inductive ApiErr where
  | notFound
  | configError
  | dimensionMismatch
  | backendUnavailable
  | embeddingError
  | indexMissing
deriving DecidableEq, Repr

/-- Errors raised by the Elasticsearch client itself (before the endpoint's
exception handling). -/
inductive ESErr where
  | unavailable
  | indexAbsent
  | docAbsent
deriving DecidableEq, Repr

/-- `IngestRequest`: `frases: list[str]` (min length 1, enforced by pydantic),
`metadatos: Optional[dict]`. -/
structure IngestRequest where
  frases : List String
  metadatos : Option MetaMap
deriving DecidableEq, Repr

/-- `SearchRequest`: `query: str`, `top_k: int = 5`. -/
structure SearchRequest where
  query : String
  top_k : ℤ
deriving DecidableEq, Repr

/-- `UpdateRequest`: `text: Optional[str]`, `metadatos: Optional[dict]`. -/
structure UpdateRequest where
  text : Option String
  metadatos : Option MetaMap
deriving DecidableEq, Repr

/-- Default of the `ELASTIC_INDEX` environment variable. -/
def INDEX_NAME : String := "phrases_openai"

/-- `int.from_bytes(chunk, "little", signed=False)`: little-endian value of a
byte list. -/
def bytesLE : List ℕ → ℕ
  | [] => 0
  | b :: bs => b + 256 * bytesLE bs

/-- `digest * k` in Python: the byte list repeated `k` times. -/
def repBytes (digest : List ℕ) (k : ℕ) : List ℕ :=
  (List.replicate k digest).flatten

/-- One output component of the hash embedding: read the 4-byte slice
`b[i*4:(i+1)*4]` little-endian, reduce mod 100000, divide by 100000.0. -/
def chunkVal (b : List ℕ) (i : ℕ) : ℚ :=
  (((bytesLE ((b.drop (i * 4)).take 4)) % 100000 : ℕ) : ℚ) / 100000

/-- `fake_embed` from the source, applied to the SHA-256 digest of the text:
`b = h * ((D * 4 // len(h)) + 1)`, then for `i in range(D)` emit
`(int.from_bytes(b[i*4:(i+1)*4], "little") % 100000) / 100000.0`. -/
def fake_embed (digest : List ℕ) (D : ℕ) : List ℚ :=
  let b := repBytes digest (D * 4 / digest.length + 1)
  (List.range D).map (fun i => chunkVal b i)

/-- `fake_embed` as a function of the text, given the hash function. -/
def fakeEmbedText (sha : String → List ℕ) (D : ℕ) (text : String) : List ℚ :=
  fake_embed (sha text) D

/-- Reference embedding from the spec's words: stretch the digest by
repetition (`k` copies, enough that at least `4*D` bytes are available), then
for each of the `D` components read 4 bytes little-endian unsigned, reduce
modulo 100000 and divide by 100000.0. -/
def spec_embed (digest : List ℕ) (k D : ℕ) : List ℚ :=
  (List.range D).map (fun i => chunkVal (repBytes digest k) i)

/-- `openai_embed` from the source, with the environment's API key (already
whitespace-stripped, as the code does `os.getenv(...).strip()`) and the vector
returned by the remote API as explicit inputs: fail with a config error when
the stripped key is empty (`if not api_key`), fail with a dimension-mismatch
error when the returned vector's length differs from `EMBEDDING_DIM`,
otherwise return the vector. -/
def openai_embed (apiKey : String) (D : ℕ) (respVec : List ℚ) :
    Except ApiErr (List ℚ) :=
  if apiKey.isEmpty then .error .configError
  else if respVec.length ≠ D then .error .dimensionMismatch
  else .ok respVec

/-- `embed` from the source: dispatch on `EMBEDDING_PROVIDER`; `extVec t` is
the vector the remote API would return for `t`. -/
def embed (provider : String) (apiKey : String) (D : ℕ)
    (sha : String → List ℕ) (extVec : String → List ℚ) (text : String) :
    Except ApiErr (List ℚ) :=
  if provider = "openai" then openai_embed apiKey D (extVec text)
  else .ok (fake_embed (sha text) D)

/-- `ensure_index` from the source: if the index exists do nothing, otherwise
create it (with the text / meta / dense-vector mapping). -/
def ensure_index (s : ES) : ES :=
  if s.idx then s else { s with idx := true }

/-- `es.get(index, id)`: raises when the store is unreachable, the index is
absent, or the document is absent; otherwise returns its `_source`. -/
def esGet (reach : Bool) (s : ES) (id : String) : Except ESErr EsDoc :=
  if reach = false then .error .unavailable
  else if s.idx = false then .error .indexAbsent
  else match List.lookup id s.docs with
    | some d => .ok d
    | none => .error .docAbsent

/-- `es.delete(index, id)`: raises when unreachable, index absent or document
absent; otherwise removes every binding of the id. -/
def esDelete (reach : Bool) (s : ES) (id : String) : Except ESErr Store :=
  if reach = false then .error .unavailable
  else if s.idx = false then .error .indexAbsent
  else if (List.lookup id s.docs).isSome then
    .ok (s.docs.filter (fun p => p.1 != id))
  else .error .docAbsent

/-- `ingest`'s per-text loop: for each text generate a fresh id, embed the
text (an embedding failure raises and aborts the batch), store the document
(the i-th `es.index` call succeeds iff `storeOk i`; a store failure raises and
aborts the batch), and collect the ids in input order. -/
def ingestLoop (emb : String → Except ApiErr (List ℚ)) (storeOk : ℕ → Bool)
    (fresh : ℕ → String) (meta : MetaMap) :
    List String → ℕ → Store → Store × Except ApiErr (List String)
  | [], _, s => (s, .ok [])
  | t :: ts, i, s =>
    match emb t with
    | .error e => (s, .error e)
    | .ok vec =>
      if storeOk i then
        match ingestLoop emb storeOk fresh meta ts (i + 1)
            ((fresh i, ⟨t, meta, vec⟩) :: s) with
        | (s', .ok ids) => (s', .ok (fresh i :: ids))
        | (s', .error e) => (s', .error e)
      else (s, .error .backendUnavailable)

/-- `meta = req.metadatos or {}`: Python truthiness, an absent or empty dict
becomes the empty dict. -/
def pyOrEmpty (o : Option MetaMap) : MetaMap :=
  match o with
  | none => []
  | some m => if m.isEmpty then [] else m

/-- The `/ingest` endpoint: ensure the index, resolve the shared metadata,
run the per-text loop from position 0, refresh, and answer with the inserted
count and the ids. -/
def ingest (emb : String → Except ApiErr (List ℚ)) (storeOk : ℕ → Bool)
    (fresh : ℕ → String) (s : ES) (req : IngestRequest) :
    ES × Except ApiErr (ℕ × List String) :=
  let s₁ := ensure_index s
  let meta := pyOrEmpty req.metadatos
  match ingestLoop emb storeOk fresh meta req.frases 0 s₁.docs with
  | (docs', .ok ids) => ({ s₁ with docs := docs' }, .ok (ids.length, ids))
  | (docs', .error e) => ({ s₁ with docs := docs' }, .error e)

/-- The `/documents/{doc_id}` DELETE endpoint: `try: es.delete(...)` with a
blanket `except Exception` that answers 404 Not Found, then refresh. -/
def delete_document (reach : Bool) (s : ES) (doc_id : String) :
    ES × Except ApiErr String :=
  match esDelete reach s doc_id with
  | .error _ => (s, .error .notFound)
  | .ok docs' => ({ s with docs := docs' }, .ok doc_id)

/-- The `/documents/{doc_id}` PUT endpoint: fetch the current `_source`
(any exception there answers 404 Not Found), resolve the new text and
metadata by presence (`is not None`; the source reads
`current.get("meta", {})`, which in this model is the always-present `meta`
field), recompute the embedding from the effective text unconditionally,
rewrite the whole document, refresh, and answer with the id and new text. -/
def update_document (emb : String → Except ApiErr (List ℚ)) (reach : Bool)
    (s : ES) (doc_id : String) (req : UpdateRequest) :
    ES × Except ApiErr (String × String) :=
  match esGet reach s doc_id with
  | .error _ => (s, .error .notFound)
  | .ok current =>
    let new_text := req.text.getD current.text
    let new_meta := req.metadatos.getD current.meta
    match emb new_text with
    | .error e => (s, .error e)
    | .ok new_vec =>
      ({ s with docs := (doc_id, ⟨new_text, new_meta, new_vec⟩) :: s.docs },
        .ok (doc_id, new_text))

/-- The `knn` section of an `es.search` request. -/
structure KnnClause where
  field : String
  query_vector : List ℚ
  k : ℤ
  num_candidates : ℤ
deriving DecidableEq, Repr

/-- The `query` section of an `es.search` request, as far as this service
builds one: a single full-text `match` clause, or a `bool` query whose
`should` list holds optional-match clauses. -/
inductive EsQuery where
  | matchText (field : String) (q : String)
  | boolShould (should : List EsQuery)

/-- One `es.search` request as issued by the service. -/
structure SearchCall where
  index : String
  size : ℤ
  query : Option EsQuery
  knn : Option KnnClause

/-- One raw hit of the engine's answer (`_id`, `_source`, `_score`; `meta`
may be absent from `_source`, hence the `Option`). -/
structure Hit where
  id : String
  source_text : String
  source_meta : Option MetaMap
  score : ℚ
deriving DecidableEq, Repr

/-- One normalized result of a search endpoint:
`{"id": ..., "text": ..., "meta": h["_source"].get("meta", {}), "score": ...}`. -/
structure SearchResult where
  id : String
  text : String
  meta : MetaMap
  score : ℚ
deriving DecidableEq, Repr

/-- The hit-to-result mapping every search endpoint applies, in hit order. -/
def hitToResult (h : Hit) : SearchResult :=
  ⟨h.id, h.source_text, h.source_meta.getD [], h.score⟩

/-- The request `/search/lexical` issues: a single `match` on `text`. -/
def lexicalSearchCall (topK : ℤ) (q : String) : SearchCall :=
  { index := INDEX_NAME, size := topK,
    query := some (.matchText "text" q), knn := none }

/-- The request `/search/semantic` issues: a `knn` section on `embedding`
with `k = top_k` and `num_candidates = max(top_k * 20, 100)`, no `query`. -/
def semanticSearchCall (topK : ℤ) (qvec : List ℚ) : SearchCall :=
  { index := INDEX_NAME, size := topK, query := none,
    knn := some { field := "embedding", query_vector := qvec, k := topK,
                  num_candidates := max (topK * 20) 100 } }

/-- The request `/search/hybrid` issues: a `bool`/`should` query holding the
lexical `match` clause, together with the same `knn` section as the semantic
search. -/
def hybridSearchCall (topK : ℤ) (q : String) (qvec : List ℚ) : SearchCall :=
  { index := INDEX_NAME, size := topK,
    query := some (.boolShould [.matchText "text" q]),
    knn := some { field := "embedding", query_vector := qvec, k := topK,
                  num_candidates := max (topK * 20) 100 } }

/-- The `/search/lexical` endpoint: issue the lexical request and map the
hits in order; an unreachable store or absent index raises. -/
def search_lexical (respond : SearchCall → List Hit) (reach : Bool) (s : ES)
    (req : SearchRequest) : ES × Except ApiErr (List SearchResult) :=
  if reach = false then (s, .error .backendUnavailable)
  else if s.idx = false then (s, .error .indexMissing)
  else (s, .ok ((respond (lexicalSearchCall req.top_k req.query)).map hitToResult))

/-- The `/search/semantic` endpoint: embed the query first, then issue the
knn request and map the hits in order. -/
def search_semantic (emb : String → Except ApiErr (List ℚ))
    (respond : SearchCall → List Hit) (reach : Bool) (s : ES)
    (req : SearchRequest) : ES × Except ApiErr (List SearchResult) :=
  match emb req.query with
  | .error e => (s, .error e)
  | .ok qvec =>
    if reach = false then (s, .error .backendUnavailable)
    else if s.idx = false then (s, .error .indexMissing)
    else (s, .ok ((respond (semanticSearchCall req.top_k qvec)).map hitToResult))

/-- The `/search/hybrid` endpoint: embed the query first, then issue the one
combined request and map the hits in order (no further re-ranking). -/
def search_hybrid (emb : String → Except ApiErr (List ℚ))
    (respond : SearchCall → List Hit) (reach : Bool) (s : ES)
    (req : SearchRequest) : ES × Except ApiErr (List SearchResult) :=
  match emb req.query with
  | .error e => (s, .error e)
  | .ok qvec =>
    if reach = false then (s, .error .backendUnavailable)
    else if s.idx = false then (s, .error .indexMissing)
    else (s, .ok ((respond (hybridSearchCall req.top_k req.query qvec)).map hitToResult))

/-- Scores listed in non-increasing order (the store contract for ranked
results). -/
def scoresDesc (scores : List ℚ) : Prop :=
  List.Pairwise (fun a b => b ≤ a) scores

/-! ## Helper lemmas -/

theorem repBytes_length (d : List ℕ) (k : ℕ) :
    (repBytes d k).length = k * d.length := by
  rw [repBytes, List.length_flatten, List.map_replicate, List.sum_const_nat]

theorem repBytes_add (d : List ℕ) (a b : ℕ) :
    repBytes d (a + b) = repBytes d a ++ repBytes d b := by
  rw [repBytes, repBytes, repBytes, List.replicate_add, List.flatten_append]

theorem take_repBytes_eq (d : List ℕ) (n : ℕ) {k k' : ℕ}
    (hk : n ≤ k * d.length) (hkk : k ≤ k') :
    (repBytes d k').take n = (repBytes d k).take n := by
  obtain ⟨m, rfl⟩ := Nat.exists_eq_add_of_le hkk
  rw [repBytes_add, List.take_append_of_le_length (by rw [repBytes_length]; exact hk)]

theorem chunkVal_take (b : List ℕ) (n i : ℕ) (h : i * 4 + 4 ≤ n) :
    chunkVal (b.take n) i = chunkVal b i := by
  unfold chunkVal
  rw [List.drop_take, List.take_take, min_eq_left (by omega)]

theorem spec_embed_indep (d : List ℕ) (D : ℕ) {k k' : ℕ}
    (hk : 4 * D ≤ k * d.length) (hk' : 4 * D ≤ k' * d.length) :
    spec_embed d k D = spec_embed d k' D := by
  unfold spec_embed
  apply List.map_eq_map_iff.mpr
  intro i hi
  rw [List.mem_range] at hi
  have h4 : i * 4 + 4 ≤ 4 * D := by omega
  rw [← chunkVal_take (repBytes d k) (4 * D) i h4,
    ← chunkVal_take (repBytes d k') (4 * D) i h4]
  rcases le_total k k' with h | h
  · rw [take_repBytes_eq d (4 * D) hk h]
  · rw [take_repBytes_eq d (4 * D) hk' h]

theorem code_count_ge (D len : ℕ) (hlen : 0 < len) :
    4 * D ≤ (D * 4 / len + 1) * len := by
  have h2 := Nat.mod_lt (D * 4) hlen
  calc 4 * D = D * 4 := by ring
  _ = len * (D * 4 / len) + D * 4 % len := (Nat.div_add_mod _ _).symm
  _ ≤ len * (D * 4 / len) + len := by omega
  _ = (D * 4 / len + 1) * len := by ring

/-! ## Claim theorems -/

/-- C2: for every text, the local embedding strategy (`fake_embed` applied to
the text's hash digest) equals the reference function of the spec — repeat the
digest's byte stream so that at least `4*D` bytes are available, read each of
the `D` components as 4 bytes little-endian unsigned, reduce modulo 100000 and
divide by 100000.0 — regardless of how far the stream is stretched; every
component lies in `[0, 1)`; and the result is a pure function of the text. -/
theorem fake_embed_matches_spec_and_bounds (sha : String → List ℕ) (D : ℕ)
    (t : String) (hlen : 0 < (sha t).length) :
    (∀ k, 4 * D ≤ k * (sha t).length →
      fakeEmbedText sha D t = spec_embed (sha t) k D) ∧
    (∀ q ∈ fakeEmbedText sha D t, 0 ≤ q ∧ q < 1) ∧
    (∀ t', t = t' → fakeEmbedText sha D t = fakeEmbedText sha D t') := by
  refine ⟨?_, ?_, ?_⟩
  · intro k hk
    have h : fakeEmbedText sha D t
        = spec_embed (sha t) (D * 4 / (sha t).length + 1) D := rfl
    rw [h]
    exact spec_embed_indep _ _ (code_count_ge D _ hlen) hk
  · intro q hq
    unfold fakeEmbedText fake_embed at hq
    simp only [List.mem_map, List.mem_range] at hq
    obtain ⟨i, _, rfl⟩ := hq
    unfold chunkVal
    refine ⟨by positivity, ?_⟩
    rw [div_lt_one (by norm_num)]
    exact_mod_cast Nat.mod_lt _ (by norm_num)
  · intro t' ht
    rw [ht]

/-- Witness for C2 at a concrete hash function, dimension and text. -/
theorem fake_embed_matches_spec_and_bounds_witness :
    fakeEmbedText (fun _ => List.replicate 32 1) 1 "x"
      = spec_embed (List.replicate 32 1) 1 1 :=
  (fake_embed_matches_spec_and_bounds (fun _ => List.replicate 32 1) 1 "x"
    (by decide)).1 1 (by decide)

/-- C3: whenever `embed` returns a vector — under the local or the external
strategy — that vector has exactly `D` elements; the local strategy always
produces length `D`, and when the external strategy receives a vector of any
other length (with a configured key) it fails with a dimension mismatch rather
than returning it. -/
theorem embed_length_spec (provider apiKey : String) (D : ℕ)
    (sha : String → List ℕ) (extVec : String → List ℚ) (t : String) :
    (∀ w, embed provider apiKey D sha extVec t = .ok w → w.length = D) ∧
    ((fake_embed (sha t) D).length = D) ∧
    (¬ apiKey.isEmpty → (extVec t).length ≠ D →
      openai_embed apiKey D (extVec t) = .error .dimensionMismatch) := by
  have hfake : (fake_embed (sha t) D).length = D := by
    unfold fake_embed
    rw [List.length_map, List.length_range]
  refine ⟨?_, hfake, ?_⟩
  · intro w hw
    unfold embed at hw
    by_cases hp : provider = "openai"
    · rw [if_pos hp] at hw
      unfold openai_embed at hw
      by_cases hk : apiKey.isEmpty
      · rw [if_pos hk] at hw
        exact Except.noConfusion hw
      · rw [if_neg hk] at hw
        by_cases hd : (extVec t).length ≠ D
        · rw [if_pos hd] at hw
          exact Except.noConfusion hw
        · rw [if_neg hd] at hw
          simp only [Except.ok.injEq] at hw
          subst hw
          push_neg at hd
          exact hd
    · rw [if_neg hp] at hw
      simp only [Except.ok.injEq] at hw
      subst hw
      exact hfake
  · intro hk hd
    unfold openai_embed
    rw [if_neg hk, if_pos hd]

/-- Witness for C3: a 3-element external vector against `D = 2` is rejected
with a dimension mismatch, and the local strategy produces length `D`. -/
theorem embed_length_spec_witness :
    openai_embed "k" 2 [0, 0, 0] = .error .dimensionMismatch ∧
    (fake_embed (List.replicate 32 1) 2).length = 2 :=
  ⟨(embed_length_spec "openai" "k" 2 (fun _ => List.replicate 32 1)
      (fun _ => [0, 0, 0]) "t").2.2 (by decide) (by decide),
    (embed_length_spec "fake" "k" 2 (fun _ => List.replicate 32 1)
      (fun _ => []) "t").2.1⟩

/-- C4: updating an existing document with only metadata supplied keeps the
stored text, replaces the metadata with the supplied value, and stores an
embedding recomputed (unconditionally) from the retained text. -/
theorem update_metadata_only_spec (emb : String → Except ApiErr (List ℚ))
    (s : ES) (id : String) (d : EsDoc) (m : MetaMap) (v : List ℚ)
    (hidx : s.idx = true) (hget : List.lookup id s.docs = some d)
    (hemb : emb d.text = .ok v) :
    update_document emb true s id ⟨none, some m⟩
      = ({ s with docs := (id, ⟨d.text, m, v⟩) :: s.docs }, .ok (id, d.text)) ∧
    List.lookup id ((id, (⟨d.text, m, v⟩ : EsDoc)) :: s.docs)
      = some ⟨d.text, m, v⟩ := by
  constructor
  · unfold update_document esGet
    rw [hidx, hget]
    simp only [Bool.true_eq_false, if_false, reduceIte, Option.getD_none,
      Option.getD_some]
    rw [hemb]
  · simp [List.lookup]

/-- Witness for C4 at a concrete store, document and embedding function. -/
theorem update_metadata_only_spec_witness :
    update_document (fun _ => .ok []) true ⟨true, [("a", ⟨"t", [], []⟩)]⟩ "a"
        ⟨none, some [("k", "v")]⟩
      = (⟨true, [("a", ⟨"t", [("k", "v")], []⟩), ("a", ⟨"t", [], []⟩)]⟩,
          .ok ("a", "t")) :=
  (update_metadata_only_spec (fun _ => .ok [])
    ⟨true, [("a", ⟨"t", [], []⟩)]⟩ "a" ⟨"t", [], []⟩ [("k", "v")] []
    rfl (by decide) rfl).1

/-- C10: update resolves the supplied fields by presence, not truthiness —
`text = ""` replaces the stored text with the empty string and the embedding
is recomputed from the empty string, and `metadata = {}` replaces the stored
metadata with the empty map; neither falls back to the stored value. -/
theorem update_empty_values_spec (emb : String → Except ApiErr (List ℚ))
    (s : ES) (id : String) (d : EsDoc) (v : List ℚ)
    (hidx : s.idx = true) (hget : List.lookup id s.docs = some d)
    (hemb : emb "" = .ok v) :
    update_document emb true s id ⟨some "", some []⟩
      = ({ s with docs := (id, ⟨"", [], v⟩) :: s.docs }, .ok (id, "")) ∧
    List.lookup id ((id, (⟨"", [], v⟩ : EsDoc)) :: s.docs)
      = some ⟨"", ([] : MetaMap), v⟩ := by
  constructor
  · unfold update_document esGet
    rw [hidx, hget]
    simp only [Bool.true_eq_false, if_false, reduceIte, Option.getD_none,
      Option.getD_some]
    rw [hemb]
  · simp [List.lookup]

/-- Witness for C10: empty text and empty metadata both replace the stored
values. -/
theorem update_empty_values_spec_witness :
    update_document (fun _ => .ok [1]) true
        ⟨true, [("a", ⟨"t", [("k", "v")], []⟩)]⟩ "a" ⟨some "", some []⟩
      = (⟨true, [("a", ⟨"", [], [1]⟩), ("a", ⟨"t", [("k", "v")], []⟩)]⟩,
          .ok ("a", "")) :=
  (update_empty_values_spec (fun _ => .ok [1])
    ⟨true, [("a", ⟨"t", [("k", "v")], []⟩)]⟩ "a" ⟨"t", [("k", "v")], []⟩ [1]
    rfl (by decide) rfl).1

/-- C5 counterexample: with the backing store unreachable and the addressed
id present in the store, `delete` still answers NotFound — the blanket
`except Exception` converts the backend failure — contradicting both that
NotFound occurs exactly when the id does not exist and that backend failures
surface as BackendUnavailable. -/
theorem delete_unreachable_returns_notFound :
    (delete_document false ⟨true, [("x", ⟨"t", [], []⟩)]⟩ "x").2
        = .error .notFound ∧
    List.lookup "x" [("x", (⟨"t", [], []⟩ : EsDoc))] = some ⟨"t", [], []⟩ :=
  ⟨rfl, rfl⟩

/-- C5 (amended): `update` and `delete` answer NotFound exactly when the
store is unreachable, the index is absent, or the addressed id does not
exist — i.e. a nonexistent id is never a silent no-op success, but a
backing-store failure during the operation is converted into NotFound by the
blanket exception handler rather than surfaced as BackendUnavailable. -/
theorem update_delete_notFound_iff (emb : String → Except ApiErr (List ℚ))
    (reach : Bool) (s : ES) (id : String) (req : UpdateRequest)
    (hemb : ∀ t, emb t ≠ .error .notFound) :
    ((delete_document reach s id).2 = .error .notFound ↔
      (reach = false ∨ s.idx = false ∨ List.lookup id s.docs = none)) ∧
    ((update_document emb reach s id req).2 = .error .notFound ↔
      (reach = false ∨ s.idx = false ∨ List.lookup id s.docs = none)) := by
  constructor
  · unfold delete_document esDelete
    cases reach with
    | false => simp
    | true =>
      cases hidx : s.idx with
      | false => simp
      | true =>
        cases hl : List.lookup id s.docs with
        | none => simp
        | some d => simp
  · unfold update_document esGet
    cases reach with
    | false => simp
    | true =>
      cases hidx : s.idx with
      | false => simp
      | true =>
        cases hl : List.lookup id s.docs with
        | none => simp
        | some d =>
          simp only [Bool.true_eq_false, if_false, reduceIte]
          cases he : emb (req.text.getD d.text) with
          | error e =>
            have hne : e ≠ .notFound := by
              intro h
              exact hemb _ (h ▸ he)
            simp [hne]
          | ok v => simp

/-- Witness for C5 (amended): a nonexistent id yields NotFound, and a
successful delete is not a NotFound. -/
theorem update_delete_notFound_iff_witness :
    (delete_document true ⟨true, []⟩ "x").2 = .error .notFound ∧
    (update_document (fun _ => .ok []) true ⟨true, []⟩ "x" ⟨none, none⟩).2
      = .error .notFound :=
  ⟨(update_delete_notFound_iff (fun _ => .ok []) true ⟨true, []⟩ "x"
      ⟨none, none⟩ (fun _ h => Except.noConfusion h)).1.mpr
      (Or.inr (Or.inr rfl)),
    (update_delete_notFound_iff (fun _ => .ok []) true ⟨true, []⟩ "x"
      ⟨none, none⟩ (fun _ h => Except.noConfusion h)).2.mpr
      (Or.inr (Or.inr rfl))⟩

/-- C6 counterexample: lexical search against a state whose document
collection does not exist completes without creating it — the post-state
still has no index — so the search operations do not first guarantee the
schema exists. -/
theorem search_lexical_does_not_ensure_schema :
    (search_lexical (fun _ => []) true ⟨false, []⟩ ⟨"q", 5⟩).1 = ⟨false, []⟩ ∧
    (search_lexical (fun _ => []) true ⟨false, []⟩ ⟨"q", 5⟩).1.idx = false :=
  ⟨rfl, rfl⟩

/-- C6 (amended): ingest guarantees the schema exists before issuing its
store requests (its post-state always has the index), and `ensure_index` is
idempotent and leaves a state with an existing index unchanged; the three
search operations, by contrast, never ensure the schema — they leave the
backend state exactly as found. -/
theorem schema_ensured_spec (emb : String → Except ApiErr (List ℚ))
    (storeOk : ℕ → Bool) (fresh : ℕ → String)
    (respond : SearchCall → List Hit) (reach : Bool) (s s' : ES)
    (req : IngestRequest) (sreq : SearchRequest) :
    ((ingest emb storeOk fresh s req).1.idx = true) ∧
    (ensure_index (ensure_index s') = ensure_index s') ∧
    (s'.idx = true → ensure_index s' = s') ∧
    ((search_lexical respond reach s sreq).1 = s) ∧
    ((search_semantic emb respond reach s sreq).1 = s) ∧
    ((search_hybrid emb respond reach s sreq).1 = s) := by
  have hidx : ∀ u : ES, (ensure_index u).idx = true := by
    intro u
    unfold ensure_index
    cases h : u.idx with
    | false => simp [h]
    | true => simp [h]
  refine ⟨?_, ?_, ?_, ?_, ?_, ?_⟩
  · unfold ingest
    rcases h : ingestLoop emb storeOk fresh (pyOrEmpty req.metadatos)
        req.frases 0 (ensure_index s).docs with ⟨docs', r⟩
    cases r with
    | ok ids => simp [h, hidx]
    | error e => simp [h, hidx]
  · unfold ensure_index
    cases h : s'.idx with
    | false => simp [h]
    | true => simp [h]
  · intro h
    unfold ensure_index
    simp [h]
  · unfold search_lexical
    cases reach with
    | false => simp
    | true =>
      cases h : s.idx with
      | false => simp [h]
      | true => simp [h]
  · unfold search_semantic
    cases he : emb sreq.query with
    | error e => simp
    | ok v =>
      cases reach with
      | false => simp
      | true =>
        cases h : s.idx with
        | false => simp [h]
        | true => simp [h]
  · unfold search_hybrid
    cases he : emb sreq.query with
    | error e => simp
    | ok v =>
      cases reach with
      | false => simp
      | true =>
        cases h : s.idx with
        | false => simp [h]
        | true => simp [h]

/-- Witness for C6 (amended): ingest starting from a state with no index
leaves the index created, and `ensure_index` is a no-op on an existing
index. -/
theorem schema_ensured_spec_witness :
    (ingest (fun _ => .ok []) (fun _ => true) (fun _ => "i") ⟨false, []⟩
        ⟨["a"], none⟩).1.idx = true ∧
    ensure_index ⟨true, []⟩ = ⟨true, []⟩ :=
  ⟨(schema_ensured_spec (fun _ => .ok []) (fun _ => true) (fun _ => "i")
      (fun _ => []) true ⟨false, []⟩ ⟨true, []⟩ ⟨["a"], none⟩ ⟨"q", 5⟩).1,
    (schema_ensured_spec (fun _ => .ok []) (fun _ => true) (fun _ => "i")
      (fun _ => []) true ⟨false, []⟩ ⟨true, []⟩ ⟨["a"], none⟩ ⟨"q", 5⟩).2.2.1
      rfl⟩

/-- C8: semantic search embeds the query and issues one knn request asking
for the `topK` nearest vectors with a candidate pool of exactly
`max(topK * 20, 100)`; its answer is the store's hit list mapped in order, so
it has at most `topK` elements and keeps the store's descending score
order. -/
theorem semantic_knn_spec (emb : String → Except ApiErr (List ℚ))
    (respond : SearchCall → List Hit) (s : ES) (q : String) (topK : ℤ)
    (v : List ℚ) (hk : 0 < topK) (hemb : emb q = .ok v) (hidx : s.idx = true)
    (hlen : (respond (semanticSearchCall topK v)).length ≤ topK.toNat)
    (hsort : scoresDesc ((respond (semanticSearchCall topK v)).map Hit.score)) :
    (semanticSearchCall topK v).knn
      = some ⟨"embedding", v, topK, max (topK * 20) 100⟩ ∧
    search_semantic emb respond true s ⟨q, topK⟩
      = (s, .ok ((respond (semanticSearchCall topK v)).map hitToResult)) ∧
    ((respond (semanticSearchCall topK v)).map hitToResult).length
      ≤ topK.toNat ∧
    scoresDesc (((respond (semanticSearchCall topK v)).map hitToResult).map
      SearchResult.score) := by
  have hmap : ((respond (semanticSearchCall topK v)).map hitToResult).map
      SearchResult.score = (respond (semanticSearchCall topK v)).map
      Hit.score := by
    rw [List.map_map]
    congr 1
  refine ⟨rfl, ?_, ?_, ?_⟩
  · unfold search_semantic
    rw [hemb]
    simp only [Bool.true_eq_false, if_false, reduceIte, hidx]
  · rw [List.length_map]
    exact hlen
  · rw [hmap]
    exact hsort

/-- Witness for C8 at a concrete embedding function and store answer. -/
theorem semantic_knn_spec_witness :
    search_semantic (fun _ => .ok []) (fun _ => []) true ⟨true, []⟩ ⟨"q", 5⟩
      = (⟨true, []⟩, .ok []) :=
  (semantic_knn_spec (fun _ => .ok []) (fun _ => []) ⟨true, []⟩ "q" 5 []
    (by decide) rfl rfl (by decide) List.Pairwise.nil).2.1

/-- C7: hybrid search issues exactly one retrieval request, whose lexical
match clause sits in a `bool`/`should` (optional-match) list and whose knn
clause is the same one semantic search issues; its answer is the store's hit
list mapped in order with the scores untouched — no re-ranking or
reciprocal-rank fusion of its own. -/
theorem hybrid_single_request_spec (emb : String → Except ApiErr (List ℚ))
    (respond : SearchCall → List Hit) (s : ES) (q : String) (topK : ℤ)
    (v : List ℚ) (hemb : emb q = .ok v) (hidx : s.idx = true) :
    (hybridSearchCall topK q v).query
      = some (.boolShould [.matchText "text" q]) ∧
    (hybridSearchCall topK q v).knn = (semanticSearchCall topK v).knn ∧
    search_hybrid emb respond true s ⟨q, topK⟩
      = (s, .ok ((respond (hybridSearchCall topK q v)).map hitToResult)) ∧
    ((respond (hybridSearchCall topK q v)).map hitToResult).map
        SearchResult.score
      = (respond (hybridSearchCall topK q v)).map Hit.score := by
  refine ⟨rfl, rfl, ?_, ?_⟩
  · unfold search_hybrid
    rw [hemb]
    simp only [Bool.true_eq_false, if_false, reduceIte, hidx]
  · rw [List.map_map]
    congr 1

/-- Witness for C7 at a concrete embedding function and store answer. -/
theorem hybrid_single_request_spec_witness :
    search_hybrid (fun _ => .ok []) (fun _ => []) true ⟨true, []⟩ ⟨"q", 5⟩
      = (⟨true, []⟩, .ok []) :=
  (hybrid_single_request_spec (fun _ => .ok []) (fun _ => []) ⟨true, []⟩
    "q" 5 [] rfl rfl).2.2.1

theorem range_map_shift {α : Type} (f : ℕ → α) (i n : ℕ) :
    (List.range (n + 1)).map (fun j => f (i + j))
      = f i :: (List.range n).map (fun j => f (i + 1 + j)) := by
  rw [List.range_succ_eq_map, List.map_cons, List.map_map, Nat.add_zero]
  congr 1
  apply List.map_eq_map_iff.mpr
  intro a _
  show f (i + (a + 1)) = f (i + 1 + a)
  exact congrArg f (by omega)

theorem lookup_cons_ne {β : Type} (id k : String) (d : β)
    (s : List (String × β)) (h : id ≠ k) :
    List.lookup id ((k, d) :: s) = List.lookup id s := by
  have hb : (id == k) = false := beq_eq_false_iff_ne.mpr h
  simp [List.lookup, hb]

theorem lookup_cons_self {β : Type} (k : String) (d : β)
    (s : List (String × β)) :
    List.lookup k ((k, d) :: s) = some d := by
  simp [List.lookup]

/-- Running the ingest loop over texts whose embeddings and store calls all
succeed: it answers the fresh ids of positions `i, i+1, ...` in input order,
the final store holds each text's document under its fresh id (as long as no
later fresh id collides with it), and ids not generated by the loop still
look up to whatever they were before. -/
theorem ingestLoop_ok (emb : String → Except ApiErr (List ℚ))
    (storeOk : ℕ → Bool) (fresh : ℕ → String) (meta : MetaMap)
    (v : ℕ → List ℚ) :
    ∀ (ts : List String) (i : ℕ) (s : Store),
      (∀ j (h : j < ts.length), emb (ts.get ⟨j, h⟩) = .ok (v (i + j))) →
      (∀ j, j < ts.length → storeOk (i + j) = true) →
      ∃ s', ingestLoop emb storeOk fresh meta ts i s
          = (s', .ok ((List.range ts.length).map (fun j => fresh (i + j)))) ∧
        (∀ j (h : j < ts.length),
          (∀ j', j < j' → j' < ts.length → fresh (i + j') ≠ fresh (i + j)) →
          List.lookup (fresh (i + j)) s'
            = some ⟨ts.get ⟨j, h⟩, meta, v (i + j)⟩) ∧
        (∀ id, (∀ j, j < ts.length → id ≠ fresh (i + j)) →
          List.lookup id s' = List.lookup id s) := by
  intro ts
  induction ts with
  | nil =>
    intro i s _ _
    refine ⟨s, rfl, ?_, fun id _ => rfl⟩
    intro j h
    simp at h
  | cons t ts ih =>
    intro i s hemb hst
    have he0 : emb t = .ok (v i) := by
      have h := hemb 0 (by simp)
      simpa using h
    have hs0 : storeOk i = true := by
      have h := hst 0 (by simp)
      simpa using h
    obtain ⟨s', hrun, hlook, hframe⟩ :=
      ih (i + 1) ((fresh i, ⟨t, meta, v i⟩) :: s)
        (by
          intro j h
          have hh := hemb (j + 1) (by simpa using Nat.succ_lt_succ h)
          have hx : i + (j + 1) = i + 1 + j := by omega
          rw [hx] at hh
          simpa using hh)
        (by
          intro j h
          have hh := hst (j + 1) (by simpa using Nat.succ_lt_succ h)
          have hx : i + (j + 1) = i + 1 + j := by omega
          rw [hx] at hh
          exact hh)
    refine ⟨s', ?_, ?_, ?_⟩
    · rw [ingestLoop, he0, hs0]
      simp only [if_true, reduceIte]
      rw [hrun]
      rw [List.length_cons, range_map_shift]
    · intro j h hfr
      cases j with
      | zero =>
        simp only [Nat.add_zero] at hfr ⊢
        rw [hframe (fresh i) ?_]
        · simp only [List.get]
          exact lookup_cons_self (fresh i) ⟨t, meta, v i⟩ s
        · intro j hj
          intro hEq
          have hx : i + (j + 1) = i + 1 + j := by omega
          exact hfr (j + 1) (by omega) (by simpa using Nat.succ_lt_succ hj)
            (by rw [hx, ← hEq])
      | succ j' =>
        have hx : i + (j' + 1) = i + 1 + j' := by omega
        rw [hx]
        have h' : j' < ts.length := by simpa using h
        have hres := hlook j' h' (by
          intro j'' hj1 hj2
          have hy : i + (j'' + 1) = i + 1 + j'' := by omega
          have := hfr (j'' + 1) (by omega) (by simpa using Nat.succ_lt_succ hj2)
          rw [hy, hx] at this
          exact this)
        rw [hres]
        simp
    · intro id hid
      rw [hframe id ?_]
      · exact lookup_cons_ne id (fresh i) ⟨t, meta, v i⟩ s
          (by simpa using hid 0 (by simp))
      · intro j hj
        have hx : i + (j + 1) = i + 1 + j := by omega
        have := hid (j + 1) (by simpa using Nat.succ_lt_succ hj)
        rw [hx] at this
        exact this

/-- Running the ingest loop over a prefix of texts that all succeed followed
by a text whose embedding or store call fails: it stops with an error, the
final store holds exactly the prefix's documents on top of the initial store,
and ids not generated for the prefix still look up to whatever they were
before. -/
theorem ingestLoop_fail (emb : String → Except ApiErr (List ℚ))
    (storeOk : ℕ → Bool) (fresh : ℕ → String) (meta : MetaMap)
    (v : ℕ → List ℚ) (t : String) (ts2 : List String) (e : ApiErr) :
    ∀ (ts1 : List String) (i : ℕ) (s : Store),
      (∀ j (h : j < ts1.length), emb (ts1.get ⟨j, h⟩) = .ok (v (i + j))) →
      (∀ j, j < ts1.length → storeOk (i + j) = true) →
      (emb t = .error e ∨
        ((∃ w, emb t = .ok w) ∧ storeOk (i + ts1.length) = false)) →
      ∃ s' e', ingestLoop emb storeOk fresh meta (ts1 ++ t :: ts2) i s
          = (s', .error e') ∧
        (emb t = .error e → e' = e) ∧
        (∀ j (h : j < ts1.length),
          (∀ j', j < j' → j' < ts1.length → fresh (i + j') ≠ fresh (i + j)) →
          List.lookup (fresh (i + j)) s'
            = some ⟨ts1.get ⟨j, h⟩, meta, v (i + j)⟩) ∧
        (∀ id, (∀ j, j < ts1.length → id ≠ fresh (i + j)) →
          List.lookup id s' = List.lookup id s) := by
  intro ts1
  induction ts1 with
  | nil =>
    intro i s _ _ hfail
    rcases hfail with hferr | ⟨⟨w, hok⟩, hsf⟩
    · refine ⟨s, e, ?_, fun _ => rfl, ?_, fun id _ => rfl⟩
      · simp only [List.nil_append]
        rw [ingestLoop, hferr]
      · intro j h
        simp at h
    · simp only [List.length_nil, Nat.add_zero] at hsf
      refine ⟨s, .backendUnavailable, ?_, ?_, ?_, fun id _ => rfl⟩
      · simp only [List.nil_append]
        rw [ingestLoop, hok, hsf]
        simp
      · intro hferr
        rw [hferr] at hok
        exact Except.noConfusion hok
      · intro j h
        simp at h
  | cons t1 ts1 ih =>
    intro i s hemb hst hfail
    have he0 : emb t1 = .ok (v i) := by
      have h := hemb 0 (by simp)
      simpa using h
    have hs0 : storeOk i = true := by
      have h := hst 0 (by simp)
      simpa using h
    obtain ⟨s', e', hrun, herr, hlook, hframe⟩ :=
      ih (i + 1) ((fresh i, ⟨t1, meta, v i⟩) :: s)
        (by
          intro j h
          have hh := hemb (j + 1) (by simpa using Nat.succ_lt_succ h)
          have hx : i + (j + 1) = i + 1 + j := by omega
          rw [hx] at hh
          simpa using hh)
        (by
          intro j h
          have hh := hst (j + 1) (by simpa using Nat.succ_lt_succ h)
          have hx : i + (j + 1) = i + 1 + j := by omega
          rw [hx] at hh
          exact hh)
        (by
          rcases hfail with hferr | ⟨hex, hsf⟩
          · exact Or.inl hferr
          · refine Or.inr ⟨hex, ?_⟩
            have hx : i + (t1 :: ts1).length = i + 1 + ts1.length := by
              simp
              omega
            rw [hx] at hsf
            exact hsf)
    refine ⟨s', e', ?_, herr, ?_, ?_⟩
    · simp only [List.cons_append]
      rw [ingestLoop, he0, hs0]
      simp only [if_true, reduceIte]
      rw [hrun]
    · intro j h hfr
      cases j with
      | zero =>
        simp only [Nat.add_zero] at hfr ⊢
        rw [hframe (fresh i) ?_]
        · simp only [List.get]
          exact lookup_cons_self (fresh i) ⟨t1, meta, v i⟩ s
        · intro j hj
          intro hEq
          have hx : i + (j + 1) = i + 1 + j := by omega
          exact hfr (j + 1) (by omega) (by simpa using Nat.succ_lt_succ hj)
            (by rw [hx, ← hEq])
      | succ j' =>
        have hx : i + (j' + 1) = i + 1 + j' := by omega
        rw [hx]
        have h' : j' < ts1.length := by simpa using h
        have hres := hlook j' h' (by
          intro j'' hj1 hj2
          have hy : i + (j'' + 1) = i + 1 + j'' := by omega
          have hz := hfr (j'' + 1) (by omega)
            (by simpa using Nat.succ_lt_succ hj2)
          rw [hy, hx] at hz
          exact hz)
        rw [hres]
        simp
    · intro id hid
      rw [hframe id ?_]
      · exact lookup_cons_ne id (fresh i) ⟨t1, meta, v i⟩ s
          (by simpa using hid 0 (by simp))
      · intro j hj
        have hx : i + (j + 1) = i + 1 + j := by omega
        have hz := hid (j + 1) (by simpa using Nat.succ_lt_succ hj)
        rw [hx] at hz
        exact hz

theorem ensure_index_idx (s : ES) : (ensure_index s).idx = true := by
  unfold ensure_index
  cases h : s.idx with
  | false => simp [h]
  | true => simp [h]

theorem ensure_index_docs (s : ES) : (ensure_index s).docs = s.docs := by
  unfold ensure_index
  cases h : s.idx with
  | false => simp [h]
  | true => simp [h]

/-- C1: an ingest call whose embeddings and store calls all succeed answers
exactly one id per input text — the fresh id generated for the i-th text, in
input order — and the store ends up holding, under each of these ids, the
triple of the i-th text, the shared resolved metadata, and the i-th text's
embedding (provided the generated ids are pairwise distinct, as uuids are). -/
theorem ingest_spec (emb : String → Except ApiErr (List ℚ))
    (storeOk : ℕ → Bool) (fresh : ℕ → String) (s : ES) (texts : List String)
    (mo : Option MetaMap) (v : ℕ → List ℚ)
    (hemb : ∀ j (h : j < texts.length), emb (texts.get ⟨j, h⟩) = .ok (v j))
    (hst : ∀ j, j < texts.length → storeOk j = true)
    (hdist : ∀ a b, a < texts.length → b < texts.length → a ≠ b →
      fresh a ≠ fresh b) :
    ∃ docs', ingest emb storeOk fresh s ⟨texts, mo⟩
        = (⟨true, docs'⟩,
            .ok (texts.length, (List.range texts.length).map fresh)) ∧
      ∀ j (h : j < texts.length),
        List.lookup (fresh j) docs'
          = some ⟨texts.get ⟨j, h⟩, pyOrEmpty mo, v j⟩ := by
  obtain ⟨s', hrun, hlook, _⟩ :=
    ingestLoop_ok emb storeOk fresh (pyOrEmpty mo) v texts 0
      (ensure_index s).docs
      (by
        intro j h
        rw [Nat.zero_add]
        exact hemb j h)
      (by
        intro j h
        rw [Nat.zero_add]
        exact hst j h)
  have hids : (List.range texts.length).map (fun j => fresh (0 + j))
      = (List.range texts.length).map fresh := by
    apply List.map_eq_map_iff.mpr
    intro a _
    rw [Nat.zero_add]
  refine ⟨s', ?_, ?_⟩
  · show (match ingestLoop emb storeOk fresh (pyOrEmpty mo) texts 0
          (ensure_index s).docs with
        | (docs', .ok ids) =>
          (({ ensure_index s with docs := docs' } : ES),
            (Except.ok (ids.length, ids) : Except ApiErr (ℕ × List String)))
        | (docs', .error e) =>
          (({ ensure_index s with docs := docs' } : ES), Except.error e)) = _
    rw [hrun, hids]
    dsimp only
    rw [ensure_index_idx, List.length_map, List.length_range]
  · intro j h
    have hres := hlook j h (by
      intro j' hj1 hj2
      rw [Nat.zero_add, Nat.zero_add]
      exact hdist j' j (by omega) (by omega) (by omega))
    rw [Nat.zero_add] at hres
    exact hres

/-- Witness for C1: ingesting one text with no metadata stores it under the
generated id and answers that id. -/
theorem ingest_spec_witness :
    ∃ docs',
      ingest (fun _ => .ok []) (fun _ => true) (fun _ => "i") ⟨false, []⟩
          ⟨["a"], none⟩
        = (⟨true, docs'⟩, .ok (1, ["i"])) ∧
      ∀ j (h : j < (["a"] : List String).length),
        List.lookup "i" docs'
          = some ⟨(["a"] : List String).get ⟨j, h⟩, [], []⟩ :=
  ingest_spec (fun _ => .ok []) (fun _ => true) (fun _ => "i") ⟨false, []⟩
    ["a"] none (fun _ => []) (fun _ _ => rfl) (fun _ _ => rfl)
    (by
      intro a b ha hb hne
      simp only [List.length_singleton, Nat.lt_one_iff] at ha hb
      subst ha
      subst hb
      exact absurd rfl hne)

/-- C9: if embedding or storing fails at the i-th text of a batch ingest,
the batch aborts there with the failure surfaced to the caller: every text
before position i keeps its stored document (no rollback), and nothing was
stored for position i or beyond — any id not generated for the successful
prefix looks up exactly as in the pre-call store. -/
theorem ingest_midbatch_failure (emb : String → Except ApiErr (List ℚ))
    (storeOk : ℕ → Bool) (fresh : ℕ → String) (s : ES) (ts1 : List String)
    (t : String) (ts2 : List String) (mo : Option MetaMap) (v : ℕ → List ℚ)
    (e : ApiErr)
    (hemb : ∀ j (h : j < ts1.length), emb (ts1.get ⟨j, h⟩) = .ok (v j))
    (hst : ∀ j, j < ts1.length → storeOk j = true)
    (hfail : emb t = .error e ∨
      ((∃ w, emb t = .ok w) ∧ storeOk ts1.length = false))
    (hdist : ∀ a b, a < ts1.length → b < ts1.length → a ≠ b →
      fresh a ≠ fresh b) :
    ∃ docs' e', ingest emb storeOk fresh s ⟨ts1 ++ t :: ts2, mo⟩
        = (⟨true, docs'⟩, .error e') ∧
      (emb t = .error e → e' = e) ∧
      (∀ j (h : j < ts1.length),
        List.lookup (fresh j) docs'
          = some ⟨ts1.get ⟨j, h⟩, pyOrEmpty mo, v j⟩) ∧
      (∀ id, (∀ j, j < ts1.length → id ≠ fresh j) →
        List.lookup id docs' = List.lookup id s.docs) := by
  obtain ⟨s', e', hrun, herr, hlook, hframe⟩ :=
    ingestLoop_fail emb storeOk fresh (pyOrEmpty mo) v t ts2 e ts1 0
      (ensure_index s).docs
      (by
        intro j h
        rw [Nat.zero_add]
        exact hemb j h)
      (by
        intro j h
        rw [Nat.zero_add]
        exact hst j h)
      (by
        rcases hfail with hferr | ⟨hex, hsf⟩
        · exact Or.inl hferr
        · exact Or.inr ⟨hex, by rw [Nat.zero_add]; exact hsf⟩)
  refine ⟨s', e', ?_, herr, ?_, ?_⟩
  · show (match ingestLoop emb storeOk fresh (pyOrEmpty mo) (ts1 ++ t :: ts2)
          0 (ensure_index s).docs with
        | (docs', .ok ids) =>
          (({ ensure_index s with docs := docs' } : ES),
            (Except.ok (ids.length, ids) : Except ApiErr (ℕ × List String)))
        | (docs', .error e) =>
          (({ ensure_index s with docs := docs' } : ES), Except.error e)) = _
    rw [hrun]
    dsimp only
    rw [ensure_index_idx]
  · intro j h
    have hres := hlook j h (by
      intro j' hj1 hj2
      rw [Nat.zero_add, Nat.zero_add]
      exact hdist j' j (by omega) (by omega) (by omega))
    rw [Nat.zero_add] at hres
    exact hres
  · intro id hid
    have hres := hframe id (by
      intro j hj
      rw [Nat.zero_add]
      exact hid j hj)
    rw [ensure_index_docs] at hres
    exact hres

/-- Witness for C9: a batch whose first embedding fails leaves the store
exactly as before the call and surfaces the embedding failure. -/
theorem ingest_midbatch_failure_witness :
    ∃ docs' e',
      ingest (fun _ => .error .embeddingError) (fun _ => true) (fun _ => "i")
          ⟨true, [("z", ⟨"t", [], []⟩)]⟩ ⟨[] ++ "b" :: [], none⟩
        = (⟨true, docs'⟩, .error e') ∧
      ((fun _ => (.error .embeddingError : Except ApiErr (List ℚ))) "b"
          = .error .embeddingError → e' = .embeddingError) ∧
      (∀ j (h : j < ([] : List String).length),
        List.lookup "i" docs'
          = some ⟨([] : List String).get ⟨j, h⟩, [], []⟩) ∧
      (∀ id, (∀ j, j < ([] : List String).length → id ≠ "i") →
        List.lookup id docs'
          = List.lookup id [("z", (⟨"t", [], []⟩ : EsDoc))]) :=
  ingest_midbatch_failure (fun _ => .error .embeddingError) (fun _ => true)
    (fun _ => "i") ⟨true, [("z", ⟨"t", [], []⟩)]⟩ [] "b" [] none
    (fun _ => []) .embeddingError
    (fun j h => absurd h (by simp))
    (fun j h => absurd h (by simp))
    (Or.inl rfl)
    (fun a b ha _ _ => absurd ha (by simp))
